import Mathlib

/-!
Verification development for the client-side file-source resolution and
selection heuristic of `SendToDyadButton.tsx` (the "Send to Dyad" button):
content normalization (`normalizeContent`), files-map extraction
(`extractFilesMap`), candidate deduplication (the pure tail of
`gatherFilesMaps`), the four-tier selection heuristic
(`chooseFilesFromMap`), the candidate-choice poll loop
(`waitAndCollectFilesMap`), and the selection/upload decision structure of
`handleClick`.

JavaScript values are shallowly embedded as the inductive `JsVal`; objects
are association lists in enumeration (insertion) order.  Asynchronous store
reads are abstracted by passing the result of each `gatherFilesMaps` sweep
explicitly: the poll loop receives one list of candidate maps per executed
iteration plus the result of the final last-chance sweep, so wall-clock
time is modelled by the number of iterations the budget allows.
-/

/-- JavaScript runtime value.  `vnull` models both `null` and `undefined`:
the source guards every property access and `typeof` test with a
truthiness check, under which the two behave identically.  `vbuf` models
an `ArrayBuffer` or typed-array view by its byte sequence.  `vobj` carries
the fields in enumeration order. -/
inductive JsVal where
  | vnull : JsVal
  | vbool : Bool → JsVal
  | vnum : Int → JsVal
  | vstr : String → JsVal
  | vbuf : List Nat → JsVal
  | varr : List JsVal → JsVal
  | vobj : List (String × JsVal) → JsVal

/-- An object's field list, in enumeration order (`Record<string, any>`). -/
abbrev JsObj := List (String × JsVal)

/-- Keys of an object, in enumeration order (`Object.keys(m)`). -/
def objKeys (m : JsObj) : List String := m.map Prod.fst

/-- Property lookup on a field list: first binding of the key, if any. -/
def jsGet (m : JsObj) (k : String) : Option JsVal :=
  (m.find? (fun kv => kv.1 == k)).map (fun kv => kv.2)

/-- Indexing `m[k]`: the bound value, or `undefined` (`vnull`) when absent. -/
def jsIndex (m : JsObj) (k : String) : JsVal := (jsGet m k).getD .vnull

/-- JavaScript truthiness of a value. -/
def truthy : JsVal → Bool
  | .vnull => false
  | .vbool b => b
  | .vnum n => n != 0
  | .vstr s => s != ""
  | .vbuf _ => true
  | .varr _ => true
  | .vobj _ => true

/-- Whether `typeof v === 'object'` holds for a truthy `v` (arrays and
buffers are objects; the `null` case never matters because every use in
the source conjoins this test with truthiness). -/
def typeofIsObject : JsVal → Bool
  | .vbuf _ => true
  | .varr _ => true
  | .vobj _ => true
  | _ => false

/-- `Array.isArray(v)`. -/
def jsIsArray : JsVal → Bool
  | .varr _ => true
  | _ => false

/-- Property access `v.k` on an arbitrary value: `undefined` when the
receiver is not a plain object or lacks the field. -/
def jsGetField : JsVal → String → JsVal
  | .vobj fields, k => (jsGet fields k).getD .vnull
  | _, _ => .vnull

/-- Whether a value is `null`/`undefined` (the `??` operator's test). -/
def nullish : JsVal → Bool
  | .vnull => true
  | _ => false

/-- `Object.keys` on an arbitrary value: field names of a plain object,
index strings for an array, empty otherwise (buffers expose no
enumerable keys). -/
def objKeysOf : JsVal → List String
  | .vobj fields => fields.map Prod.fst
  | .varr items => (List.range items.length).map (fun i => toString i)
  | _ => []

/-- `String.prototype.startsWith`, computed on the character lists. -/
def jsStartsWith (s pat : String) : Bool := pat.data.isPrefixOf s.data

/-- `String.prototype.endsWith`, computed on the character lists. -/
def jsEndsWith (s pat : String) : Bool := pat.data.isSuffixOf s.data

/-- Whether `pat` occurs contiguously inside `l`. -/
def charsInfix (pat : List Char) : List Char → Bool
  | [] => pat.isEmpty
  | c :: rest => pat.isPrefixOf (c :: rest) || charsInfix pat rest

/-- Substring test (`String.prototype.includes`, and the literal-alternation
regular-expression tests of the source). -/
def strContains (s pat : String) : Bool := charsInfix pat.data s.data

/-- Alphabet of standard base64. -/
def base64Chars : List Char :=
  "ABCDEFGHIJKLMNOPQRSTUVWXYZabcdefghijklmnopqrstuvwxyz0123456789+/".data

/-- One base64 digit. -/
def b64char (n : Nat) : Char := base64Chars.getD n 'A'

/-- Standard base64 of a byte sequence, modelling
`btoa(String.fromCharCode(...new Uint8Array(buf)))`. -/
def base64Encode : List Nat → String
  | [] => ""
  | [b0] =>
    String.mk [b64char (b0 / 4), b64char (b0 % 4 * 16)] ++ "=="
  | [b0, b1] =>
    String.mk [b64char (b0 / 4), b64char (b0 % 4 * 16 + b1 / 16),
      b64char (b1 % 16 * 4)] ++ "="
  | b0 :: b1 :: b2 :: rest =>
    String.mk [b64char (b0 / 4), b64char (b0 % 4 * 16 + b1 / 16),
      b64char (b1 % 16 * 4 + b2 / 64), b64char (b2 % 64)] ++ base64Encode rest

/-- JSON escaping of one character (`JSON.stringify` string escapes for the
characters the source data can contain). -/
def jsonEscapeChar (c : Char) : String :=
  if c = '"' then "\\\""
  else if c = '\\' then "\\\\"
  else if c = '\n' then "\\n"
  else if c = '\t' then "\\t"
  else if c = '\r' then "\\r"
  else String.singleton c

/-- JSON quoting of a string. -/
def jsonQuote (s : String) : String :=
  "\"" ++ String.join (s.data.map jsonEscapeChar) ++ "\""

mutual

/-- Model of `JSON.stringify` on the embedded value universe. -/
def jsonStringify : JsVal → String
  | .vnull => "null"
  | .vbool b => if b then "true" else "false"
  | .vnum n => toString n
  | .vstr s => jsonQuote s
  | .vbuf _ => "\x7b\x7d"
  | .varr items => "[" ++ jsonItems items ++ "]"
  | .vobj fields => "\x7b" ++ jsonFields fields ++ "\x7d"

/-- Comma-joined serialization of object fields. -/
def jsonFields : List (String × JsVal) → String
  | [] => ""
  | [(k, v)] => jsonQuote k ++ ":" ++ jsonStringify v
  | (k, v) :: kv2 :: rest =>
    jsonQuote k ++ ":" ++ jsonStringify v ++ "," ++ jsonFields (kv2 :: rest)

/-- Comma-joined serialization of array items. -/
def jsonItems : List JsVal → String
  | [] => ""
  | [v] => jsonStringify v
  | v :: v2 :: rest => jsonStringify v ++ "," ++ jsonItems (v2 :: rest)

end

/-- Source `normalizeContent` (lines 59-67): null/undefined become the
empty string; strings pass through; buffers are base64-encoded behind a
literal marker; other objects yield their `content` / `text` / `data`
field (skipping null ones, as `??` does) or their JSON serialization;
anything else goes through `String(val)`. -/
def normalizeContent (val : JsVal) : JsVal :=
  match val with
  | .vnull => .vstr ""
  | .vstr s => .vstr s
  | .vbuf bytes => .vstr ("__base64:" ++ base64Encode bytes)
  | .vobj fields =>
    let c := jsGetField (.vobj fields) "content"
    if !nullish c then c
    else
      let t := jsGetField (.vobj fields) "text"
      if !nullish t then t
      else
        let d := jsGetField (.vobj fields) "data"
        if !nullish d then d
        else .vstr (jsonStringify (.vobj fields))
  | .varr items => .vstr (jsonStringify (.varr items))
  | .vnum n => .vstr (toString n)
  | .vbool b => .vstr (if b then "true" else "false")

/-- Source `extractFilesMap` (lines 110-121): reject non-objects; return a
truthy non-array object-typed `files` field; else a truthy
`snapshot.files` of that shape; else the record itself when its first
enumeration key looks like a project path; else no match. -/
def extractFilesMap (candidate : JsVal) : Option JsVal :=
  if !truthy candidate || !typeofIsObject candidate then none
  else
    let files := jsGetField candidate "files"
    if truthy files && typeofIsObject files && !jsIsArray files then some files
    else
      let snap := jsGetField candidate "snapshot"
      let sfiles := jsGetField snap "files"
      if truthy snap && truthy sfiles && typeofIsObject sfiles && !jsIsArray sfiles
      then some sfiles
      else
        match objKeysOf candidate with
        | [] => none
        | k0 :: _ =>
          if jsStartsWith k0 "/home/project" || jsStartsWith k0 "home/project"
              || jsStartsWith k0 "src" || jsStartsWith k0 "public"
              || strContains k0 "index.html"
          then some candidate
          else none

/-- Deduplication signature of a candidate map (line 201): the first ten
keys in enumeration order joined with commas. -/
def mapSignature (m : JsObj) : String :=
  String.intercalate "," ((objKeys m).take 10)

/-- Loop state of the dedupe pass at the end of `gatherFilesMaps` (lines
197-208): signatures seen so far, output accumulator, remaining maps. -/
def dedupeGo : List String → List JsObj → List JsObj → List JsObj
  | _, acc, [] => acc
  | seen, acc, m :: rest =>
    if seen.contains (mapSignature m) then dedupeGo seen acc rest
    else dedupeGo (seen ++ [mapSignature m]) (acc ++ [m]) rest

/-- Pure deduplication stage of `gatherFilesMaps` (lines 197-208), taking
the aggregated candidate maps, in aggregation order, as input: keeps the
first map with each signature. -/
def gatherFilesMapsDedupe (maps : List JsObj) : List JsObj :=
  dedupeGo [] [] maps

/-- Fixed project-source path beginnings tried by selection tier 2
(lines 22-33). -/
def PREFERRED_PREFIXES : List String :=
  ["/home/project", "home/project", "/project", "project", "src/", "public/",
    "/client", "/server", "client/", "server/"]

/-- Fixed root filenames tried by selection tier 2 and by the poll loop's
target keys (lines 34-44). -/
def PREFERRED_ROOT_FILES : List String :=
  ["package.json", "/home/project/package.json", "vite.config.ts",
    "vite.config.js", "tsconfig.json", "tsconfig.node.json",
    "postcss.config.js", "tailwind.config.js", "index.html"]

/-- Removal of a single leading separator (`p.replace(/^\//, '')`). -/
def stripLeadingSlash (p : String) : String :=
  if jsStartsWith p "/" then String.mk (p.data.drop 1) else p

/-- Source `keyVariants` (lines 211-215): both spellings of a path, with
and without the leading separator. -/
def keyVariants (p : String) : List String :=
  if p == "" then [p]
  else if jsStartsWith p "/" then [p, stripLeadingSlash p]
  else [p, "/" ++ p]

/-- Tier-1 accumulation of `chooseFilesFromMap` (lines 222-227): for each
created path, in order, push every spelling variant that is a key of the
map and not yet collected. -/
def normCreated (keys createdPaths : List String) : List String :=
  createdPaths.foldl (fun acc p =>
    (keyVariants p).foldl (fun acc2 v =>
      if keys.contains v && !acc2.contains v then acc2 ++ [v] else acc2) acc) []

/-- Tier-2 condition on one key (loop body, lines 234-241): the key starts
with a preferred path beginning in either spelling. -/
def prefixMatches (k : String) : Bool :=
  PREFERRED_PREFIXES.any (fun pf =>
    jsStartsWith k pf || jsStartsWith k (stripLeadingSlash pf))

/-- Tier-2 condition on one key (loop body, lines 234-241): the key equals
or ends with a fixed root filename. -/
def rootMatches (k : String) : Bool :=
  PREFERRED_ROOT_FILES.any (fun rt =>
    jsEndsWith k rt || k == rt || k == "/" ++ rt)

/-- Tier-2 key collection (lines 233-241): the `chosen` insertion-ordered
set, materialized in the order `Array.from` would produce. -/
def tier2keys (keys : List String) : List String :=
  keys.foldl (fun chosen k =>
    if (prefixMatches k || rootMatches k) && !chosen.contains k
    then chosen ++ [k] else chosen) []

/-- Tier-3 pattern (line 247): the literal-alternation regular expression
test for project-looking paths. -/
def tier3test (k : String) : Bool :=
  strContains k "src/" || strContains k "public/" || strContains k "index.html"
    || strContains k "package.json" || strContains k "vite.config"

/-- One selected file: the `{ path, content }` objects built by
`chooseFilesFromMap`.  The content is whatever `normalizeContent`
returned (the source does not force it to be a string). -/
structure SelEntry where
  path : String
  content : JsVal

/-- Source `chooseFilesFromMap` (lines 217-254): `none` models the null
map the `!filesMap` guard rejects.  Four tiers, first non-empty tier
final: created-path variants, preferred beginnings and root filenames,
the project-file pattern, and the first 5000 keys. -/
def chooseFilesFromMap : Option JsObj → List String → List SelEntry
  | none, _ => []
  | some filesMap, createdPaths =>
    let keys := objKeys filesMap
    let normalizedCreated := normCreated keys createdPaths
    if normalizedCreated.length != 0 then
      normalizedCreated.map (fun k =>
        { path := k, content := normalizeContent (jsIndex filesMap k) })
    else
      let chosen := tier2keys keys
      if chosen.length != 0 then
        chosen.map (fun k =>
          { path := k, content := normalizeContent (jsIndex filesMap k) })
      else
        let fallback := keys.filter tier3test
        if fallback.length != 0 then
          fallback.map (fun k =>
            { path := k, content := normalizeContent (jsIndex filesMap k) })
        else
          (keys.take 5000).map (fun k =>
            { path := k, content := normalizeContent (jsIndex filesMap k) })

/-- Target keys of the poll loop (lines 258-259): the created paths
followed by every fixed root filename. -/
def targetKeysOf (createdPaths : List String) : List String :=
  createdPaths ++ PREFERRED_ROOT_FILES

/-- Inner test of the poll loop (line 266): the map's key set contains
some target key in its given or slash-stripped spelling. -/
def mapContainsTarget (targetKeys : List String) (m : JsObj) : Bool :=
  targetKeys.any (fun t =>
    (objKeys m).contains t || (objKeys m).contains (stripLeadingSlash t))

/-- First candidate of one sweep that contains a target key (lines
264-268). -/
def findTargetMap (targetKeys : List String) (maps : List JsObj) : Option JsObj :=
  maps.find? (mapContainsTarget targetKeys)

/-- Body of `waitAndCollectFilesMap`'s `while` (lines 261-274): one list
of candidate maps per iteration the time budget allows, then the
last-chance sweep.  Each iteration returns the first target-containing
candidate; the `maps.length && targetKeys.length === 0` early return is
modelled verbatim; otherwise the iteration sleeps, consuming one poll. -/
def waitLoop (targetKeys : List String) :
    List (List JsObj) → List JsObj → Option JsObj
  | [], finalMaps => finalMaps.head?
  | maps :: rest, finalMaps =>
    match findTargetMap targetKeys maps with
    | some m => some m
    | none =>
      if maps.length != 0 && targetKeys.length == 0 then maps.head?
      else waitLoop targetKeys rest finalMaps

/-- Source `waitAndCollectFilesMap` (lines 257-275), with each
`gatherFilesMaps` sweep's result passed explicitly: `polls` holds one
candidate list per in-budget iteration, `finalMaps` the last-chance
sweep. -/
def waitAndCollectFilesMap (createdPaths : List String)
    (polls : List (List JsObj)) (finalMaps : List JsObj) : Option JsObj :=
  waitLoop (targetKeysOf createdPaths) polls finalMaps

/-- Single-key write of `Object.assign`: overwrite in place when the key
exists, append otherwise. -/
def setKey (o : JsObj) (k : String) (v : JsVal) : JsObj :=
  if (objKeys o).contains k then
    o.map (fun kv => if kv.1 == k then (k, v) else kv)
  else o ++ [(k, v)]

/-- `Object.assign(target, src)`: copy every field of `src` into `target`
in enumeration order. -/
def objAssign (target src : JsObj) : JsObj :=
  src.foldl (fun acc kv => setKey acc kv.1 kv.2) target

/-- Merged map of the escalation step (lines 298-301): all candidates
assigned into one object in aggregation order. -/
def mergeMaps (maps : List JsObj) : JsObj :=
  maps.foldl objAssign []

/-- Value the last candidate containing a key assigns to it: the
specification-side description of `Object.assign` collision behavior. -/
def lastWins (maps : List JsObj) (k : String) : Option JsVal :=
  maps.foldl (fun acc m =>
    match jsGet m k with
    | some v => some v
    | none => acc) none

/-- Selection phase of `handleClick` (lines 292-303): initial selection,
then, when it has fewer than 5 entries, reselection against the merge of
all candidate maps (`allMaps` models the escalation's own
`gatherFilesMaps` sweep). -/
def selectWithEscalation (fm : JsObj) (created : List String)
    (allMaps : List JsObj) : List SelEntry :=
  let files := chooseFilesFromMap (some fm) created
  if files.length < 5 then
    chooseFilesFromMap (some (mergeMaps allMaps)) created
  else files

/-- Final dedupe of `handleClick` (lines 311-319): keep the first entry
for each path. -/
def dedupeByPath (files : List SelEntry) : List SelEntry :=
  files.foldl (fun out f =>
    if (out.map SelEntry.path).contains f.path then out else out ++ [f]) []

/-- Created-path normalization of `handleClick` (line 282): force a
leading separator onto non-empty paths and drop falsy entries. -/
def normalizeCreatedPaths (ps : List String) : List String :=
  (ps.map (fun p =>
    if p != "" && jsStartsWith p "/" then p
    else if p != "" then "/" ++ p
    else p)).filter (fun p => p != "")

/-- Observable outcome of one `handleClick` run: the terminal "no
snapshot / workspace files found" state (line 286), the terminal "no
files matched selection criteria" state (line 306), or one upload request
carrying the final deduplicated file list (lines 325-336).  Only the
`upload` outcome issues a network request. -/
inductive Outcome where
  | noFilesFound : Outcome
  | noSelection : Outcome
  | upload : List SelEntry → Outcome

/-- Decision structure of `handleClick` (lines 277-336) over the
explicitly passed sweep results: poll for a map, select with escalation,
report a terminal state or upload the deduplicated selection. -/
def handleClickModel (createdFilePaths : List String)
    (polls : List (List JsObj)) (finalMaps : List JsObj)
    (allMaps : List JsObj) : Outcome :=
  let created := normalizeCreatedPaths createdFilePaths
  match waitAndCollectFilesMap created polls finalMaps with
  | none => .noFilesFound
  | some fm =>
    let files := selectWithEscalation fm created allMaps
    if files.length == 0 then .noSelection
    else .upload (dedupeByPath files)

/-! ## Helper lemmas -/

theorem contains_true {l : List String} {a : String} :
    l.contains a = true ↔ a ∈ l := List.elem_iff

theorem contains_false {l : List String} {a : String} (h : a ∉ l) :
    l.contains a = false := by
  cases hc : l.contains a with
  | false => rfl
  | true => exact absurd (contains_true.mp hc) h

/-- Membership in a guarded-push fold: every element of the result was in
the accumulator or is an `l`-element satisfying the guard. -/
theorem foldl_push_mem (P : String → Bool) :
    ∀ (l acc : List String), ∀ x ∈ l.foldl (fun a k =>
      if P k && !a.contains k then a ++ [k] else a) acc,
      x ∈ acc ∨ (x ∈ l ∧ P x = true) := by
  intro l
  induction l with
  | nil => intro acc x hx; exact Or.inl hx
  | cons k l ih =>
    intro acc x hx
    simp only [List.foldl_cons] at hx
    rcases ih _ x hx with h | ⟨hl, hp⟩
    · by_cases hg : (P k && !acc.contains k) = true
      · rw [if_pos hg] at h
        rcases List.mem_append.mp h with h' | h'
        · exact Or.inl h'
        · have hx' := List.mem_singleton.mp h'
          subst hx'
          have hpk : P x = true ∧ (!acc.contains x) = true := by simpa using hg
          exact Or.inr ⟨List.mem_cons_self _ _, hpk.1⟩
      · rw [if_neg hg] at h
        exact Or.inl h
    · exact Or.inr ⟨List.mem_cons_of_mem _ hl, hp⟩

/-- A guarded-push fold preserves distinctness of the accumulator. -/
theorem foldl_push_nodup (P : String → Bool) :
    ∀ (l acc : List String), acc.Nodup →
      (l.foldl (fun a k =>
        if P k && !a.contains k then a ++ [k] else a) acc).Nodup := by
  intro l
  induction l with
  | nil => intro acc h; exact h
  | cons k l ih =>
    intro acc h
    simp only [List.foldl_cons]
    by_cases hg : (P k && !acc.contains k) = true
    · rw [if_pos hg]
      refine ih _ ?_
      have hk : acc.contains k = false := by
        have hpk : P k = true ∧ (!acc.contains k) = true := by simpa using hg
        simpa using hpk.2
      have hnotin : k ∉ acc := fun hmem => by
        rw [contains_true.mpr hmem] at hk
        cases hk
      simp [List.nodup_append, h, hnotin]
    · rw [if_neg hg]; exact ih _ h

/-- A guarded-push fold over elements that all fail the guard leaves the
accumulator unchanged. -/
theorem foldl_push_nil (P : String → Bool) :
    ∀ (l acc : List String), (∀ k ∈ l, P k = false) →
      l.foldl (fun a k =>
        if P k && !a.contains k then a ++ [k] else a) acc = acc := by
  intro l
  induction l with
  | nil => intro acc _; rfl
  | cons k l ih =>
    intro acc hall
    simp only [List.foldl_cons]
    rw [hall k (List.mem_cons_self _ _)]
    simp only [Bool.false_and, Bool.false_eq_true, if_false]
    exact ih _ (fun k' hk' => hall k' (List.mem_cons_of_mem _ hk'))

/-- Every key collected by the preferred tier is a key of the map and a
spelling variant of one of the created paths, in scope of the passed
list. -/
theorem normCreated_mem (keys : List String) :
    ∀ (ps acc : List String), ∀ x ∈ ps.foldl (fun acc p =>
      (keyVariants p).foldl (fun acc2 v =>
        if keys.contains v && !acc2.contains v then acc2 ++ [v] else acc2) acc) acc,
      x ∈ acc ∨ (x ∈ keys ∧ ∃ p ∈ ps, x ∈ keyVariants p) := by
  intro ps
  induction ps with
  | nil => intro acc x hx; exact Or.inl hx
  | cons p ps ih =>
    intro acc x hx
    simp only [List.foldl_cons] at hx
    rcases ih _ x hx with h | ⟨hk, p', hp', hv⟩
    · rcases foldl_push_mem (fun v => keys.contains v) _ _ x h with h' | ⟨hv, hc⟩
      · exact Or.inl h'
      · exact Or.inr ⟨contains_true.mp hc, p, List.mem_cons_self _ _, hv⟩
    · exact Or.inr ⟨hk, p', List.mem_cons_of_mem _ hp', hv⟩

/-- The preferred tier's collected key list is duplicate-free. -/
theorem normCreated_nodup (keys : List String) :
    ∀ (ps acc : List String), acc.Nodup → (ps.foldl (fun acc p =>
      (keyVariants p).foldl (fun acc2 v =>
        if keys.contains v && !acc2.contains v then acc2 ++ [v] else acc2) acc)
        acc).Nodup := by
  intro ps
  induction ps with
  | nil => intro acc h; exact h
  | cons p ps ih =>
    intro acc h
    simp only [List.foldl_cons]
    exact ih _ (foldl_push_nodup (fun v => keys.contains v) _ _ h)

/-- When no spelling variant of any created path is a key of the map, the
preferred tier collects nothing. -/
theorem normCreated_eq_nil (keys : List String) (ps : List String)
    (h : ∀ p ∈ ps, ∀ v ∈ keyVariants p, v ∉ keys) :
    normCreated keys ps = [] := by
  unfold normCreated
  induction ps with
  | nil => rfl
  | cons p ps ih =>
    simp only [List.foldl_cons]
    rw [foldl_push_nil (fun v => keys.contains v) _ _
      (fun v hv => contains_false (h p (List.mem_cons_self _ _) v hv))]
    exact ih (fun p' hp' => h p' (List.mem_cons_of_mem _ hp'))

/-- Tier-2 collects only keys of the map. -/
theorem tier2keys_mem (keys : List String) :
    ∀ x ∈ tier2keys keys, x ∈ keys := by
  intro x hx
  rcases foldl_push_mem (fun k => prefixMatches k || rootMatches k) keys [] x hx with
    h | ⟨hk, _⟩
  · cases h
  · exact hk

/-- Tier-2's collected key list is duplicate-free. -/
theorem tier2keys_nodup (keys : List String) : (tier2keys keys).Nodup :=
  foldl_push_nodup (fun k => prefixMatches k || rootMatches k) keys [] List.nodup_nil

/-- When no key matches a preferred path beginning or root filename,
tier 2 collects nothing. -/
theorem tier2keys_eq_nil (keys : List String)
    (h : ∀ k ∈ keys, (prefixMatches k || rootMatches k) = false) :
    tier2keys keys = [] :=
  foldl_push_nil (fun k => prefixMatches k || rootMatches k) keys [] h

/-- Tier-1 equation of the selection heuristic: a non-empty preferred-tier
collection is final. -/
theorem choose_tier1 (m : JsObj) (created : List String)
    (h : normCreated (objKeys m) created ≠ []) :
    chooseFilesFromMap (some m) created = (normCreated (objKeys m) created).map
      (fun k => { path := k, content := normalizeContent (jsIndex m k) }) := by
  simp only [chooseFilesFromMap]
  rw [if_pos]
  simpa using h

/-- Tier-4 equation of the selection heuristic: when tiers 1-3 are empty
the first 5000 keys are returned. -/
theorem choose_tier4 (m : JsObj) (created : List String)
    (h1 : normCreated (objKeys m) created = [])
    (h2 : tier2keys (objKeys m) = [])
    (h3 : (objKeys m).filter tier3test = []) :
    chooseFilesFromMap (some m) created = ((objKeys m).take 5000).map
      (fun k => { path := k, content := normalizeContent (jsIndex m k) }) := by
  simp only [chooseFilesFromMap, h1, h2, h3]
  simp

/-- Once a signature has been seen, the dedupe pass adds no further map
with that signature. -/
theorem dedupeGo_filter_seen (s : String) :
    ∀ (rest : List JsObj) (seen : List String) (acc : List JsObj),
      seen.contains s = true →
      (dedupeGo seen acc rest).filter (fun m => mapSignature m == s) =
        acc.filter (fun m => mapSignature m == s) := by
  intro rest
  induction rest with
  | nil => intro seen acc _; rfl
  | cons m rest ih =>
    intro seen acc hs
    simp only [dedupeGo]
    by_cases hm : seen.contains (mapSignature m) = true
    · rw [if_pos hm]; exact ih _ _ hs
    · rw [if_neg hm]
      have hs' : (seen ++ [mapSignature m]).contains s = true :=
        contains_true.mpr (List.mem_append.mpr (Or.inl (contains_true.mp hs)))
      rw [ih _ _ hs']
      have hne : (mapSignature m == s) = false := by
        cases hb : (mapSignature m == s) with
        | false => rfl
        | true => exact absurd (eq_of_beq hb ▸ hs) hm
      simp [List.filter_append, hne]

/-- Before a signature has been seen, the dedupe pass keeps exactly the
first remaining map carrying it. -/
theorem dedupeGo_filter_new (s : String) :
    ∀ (rest : List JsObj) (seen : List String) (acc : List JsObj),
      seen.contains s = false →
      acc.filter (fun m => mapSignature m == s) = [] →
      (dedupeGo seen acc rest).filter (fun m => mapSignature m == s) =
        (rest.find? (fun m => mapSignature m == s)).elim [] (fun m0 => [m0]) := by
  intro rest
  induction rest with
  | nil => intro seen acc _ hacc; simpa [dedupeGo, List.find?] using hacc
  | cons m rest ih =>
    intro seen acc hs hacc
    simp only [dedupeGo]
    by_cases hsig : (mapSignature m == s) = true
    · have hseq : mapSignature m = s := eq_of_beq hsig
      have hm : seen.contains (mapSignature m) = false := hseq ▸ hs
      rw [if_neg (fun hcon => by rw [hcon] at hm; cases hm)]
      have hs' : (seen ++ [mapSignature m]).contains s = true :=
        contains_true.mpr (List.mem_append.mpr (Or.inr (by simp [hseq])))
      rw [dedupeGo_filter_seen s rest _ _ hs']
      simp [List.filter_append, hacc, hsig, List.find?_cons]
    · have hsigf : (mapSignature m == s) = false := by
        cases hb : (mapSignature m == s) with
        | false => rfl
        | true => exact absurd hb hsig
      by_cases hm : seen.contains (mapSignature m) = true
      · rw [if_pos hm, ih _ _ hs hacc]
        simp [List.find?_cons, hsigf]
      · rw [if_neg hm]
        have hs' : (seen ++ [mapSignature m]).contains s = false := by
          apply contains_false
          intro hmem
          rcases List.mem_append.mp hmem with h' | h'
          · rw [contains_true.mpr h'] at hs; cases hs
          · have : mapSignature m = s := (List.mem_singleton.mp h').symm
            rw [this] at hsigf; simp at hsigf
        have hacc' : (acc ++ [m]).filter (fun m => mapSignature m == s) = [] := by
          simp [List.filter_append, hacc, hsigf]
        rw [ih _ _ hs' hacc']
        simp [List.find?_cons, hsigf]

/-- Lookup misses when the key is absent. -/
theorem jsGet_eq_none (m : JsObj) (k : String) (h : k ∉ objKeys m) :
    jsGet m k = none := by
  induction m with
  | nil => rfl
  | cons kv rest ih =>
    have hne : (kv.1 == k) = false := by
      cases hb : (kv.1 == k) with
      | false => rfl
      | true =>
        have hm : kv.1 ∈ objKeys (kv :: rest) := by simp [objKeys]
        exact absurd (eq_of_beq hb ▸ hm) h
    simp only [jsGet, List.find?_cons, hne]
    exact ih (fun hmem => h (List.mem_cons_of_mem _ hmem))

/-- Lookup on the head key. -/
theorem jsGet_cons_self (kv : String × JsVal) (rest : JsObj) :
    jsGet (kv :: rest) kv.1 = some kv.2 := by
  simp [jsGet, List.find?_cons]

/-- Lookup skips a head with a different key. -/
theorem jsGet_cons_ne (kv : String × JsVal) (rest : JsObj) (k : String)
    (h : k ≠ kv.1) : jsGet (kv :: rest) k = jsGet rest k := by
  have hne : (kv.1 == k) = false := by
    cases hb : (kv.1 == k) with
    | false => rfl
    | true => exact absurd (eq_of_beq hb).symm h
  simp [jsGet, List.find?_cons, hne]

/-- Overwriting a present key is visible to lookup of that key. -/
theorem jsGet_map_replace (k : String) (v : JsVal) :
    ∀ (o : JsObj), k ∈ objKeys o →
      jsGet (o.map (fun kv => if kv.1 == k then (k, v) else kv)) k = some v := by
  intro o
  induction o with
  | nil => intro h; cases h
  | cons kv rest ih =>
    intro h
    by_cases hb : (kv.1 == k) = true
    · simp only [List.map_cons, hb, if_true]
      exact jsGet_cons_self (k, v) _
    · have hbf : (kv.1 == k) = false := by
        cases hx : (kv.1 == k) with
        | false => rfl
        | true => exact absurd hx hb
      simp only [List.map_cons, hbf, Bool.false_eq_true, if_false]
      rw [jsGet_cons_ne _ _ _ (fun he => by simp [he] at hbf)]
      refine ih ?_
      rcases (by simpa [objKeys] using h : k = kv.1 ∨ k ∈ objKeys rest) with he | hm
      · exfalso; rw [he] at hbf; simp at hbf
      · exact hm

/-- Overwriting one key leaves lookups of other keys unchanged. -/
theorem jsGet_map_replace_ne (k : String) (v : JsVal) (k' : String) (hne : k' ≠ k) :
    ∀ (o : JsObj),
      jsGet (o.map (fun kv => if kv.1 == k then (k, v) else kv)) k' = jsGet o k' := by
  intro o
  induction o with
  | nil => rfl
  | cons kv rest ih =>
    by_cases hb : (kv.1 == k) = true
    · have hkv : kv.1 = k := eq_of_beq hb
      simp only [List.map_cons, hb, if_true]
      rw [jsGet_cons_ne (k, v) _ _ hne, jsGet_cons_ne kv _ _ (hkv ▸ hne), ih]
    · have hbf : (kv.1 == k) = false := by
        cases hx : (kv.1 == k) with
        | false => rfl
        | true => exact absurd hx hb
      simp only [List.map_cons, hbf, Bool.false_eq_true, if_false]
      by_cases hk' : k' = kv.1
      · subst hk'; rw [jsGet_cons_self, jsGet_cons_self]
      · rw [jsGet_cons_ne _ _ _ hk', jsGet_cons_ne _ _ _ hk', ih]

/-- Lookup after a single-key write of the written key. -/
theorem jsGet_setKey_self (o : JsObj) (k : String) (v : JsVal) :
    jsGet (setKey o k v) k = some v := by
  unfold setKey
  by_cases hc : (objKeys o).contains k = true
  · rw [if_pos hc]
    exact jsGet_map_replace k v o (contains_true.mp hc)
  · rw [if_neg hc]
    have hnone : jsGet o k = none :=
      jsGet_eq_none o k (fun hm => hc (contains_true.mpr hm))
    induction o with
    | nil => exact jsGet_cons_self (k, v) []
    | cons kv rest ih =>
      by_cases he : k = kv.1
      · rw [he] at hnone
        rw [jsGet_cons_self] at hnone
        cases hnone
      · rw [List.cons_append, jsGet_cons_ne _ _ _ he]
        refine ih ?_ ?_
        · intro hc'
          exact hc (contains_true.mpr (List.mem_cons_of_mem _ (contains_true.mp hc')))
        · rw [jsGet_cons_ne _ _ _ he] at hnone
          exact hnone

/-- Lookup after a single-key write of a different key. -/
theorem jsGet_setKey_ne (o : JsObj) (k : String) (v : JsVal) (k' : String)
    (hne : k' ≠ k) : jsGet (setKey o k v) k' = jsGet o k' := by
  unfold setKey
  by_cases hc : (objKeys o).contains k = true
  · rw [if_pos hc]
    exact jsGet_map_replace_ne k v k' hne o
  · rw [if_neg hc]
    induction o with
    | nil => rw [List.nil_append, jsGet_cons_ne (k, v) [] k' hne]
    | cons kv rest ih =>
      by_cases he : k' = kv.1
      · subst he
        rw [List.cons_append, jsGet_cons_self, jsGet_cons_self]
      · rw [List.cons_append, jsGet_cons_ne _ _ _ he, jsGet_cons_ne _ _ _ he]
        exact ih (fun hc' =>
          hc (contains_true.mpr (List.mem_cons_of_mem _ (contains_true.mp hc'))))

/-- Lookup after assigning a duplicate-free source object: the source's
binding wins, otherwise the target's survives. -/
theorem jsGet_objAssign (k : String) :
    ∀ (src : JsObj), (objKeys src).Nodup → ∀ (t : JsObj),
      jsGet (objAssign t src) k = (jsGet src k).elim (jsGet t k) some := by
  intro src
  induction src with
  | nil => intro _ t; rfl
  | cons kv rest ih =>
    intro hnd t
    have hnd' : (objKeys rest).Nodup := by
      simpa [objKeys] using ((by simpa [objKeys] using hnd : ((kv.1 :: objKeys rest).Nodup)).of_cons)
    have hhead : kv.1 ∉ objKeys rest := by
      have h2 : (kv.1 :: objKeys rest).Nodup := by simpa [objKeys] using hnd
      exact (List.nodup_cons.mp h2).1
    have hstep : objAssign t (kv :: rest) = objAssign (setKey t kv.1 kv.2) rest := by
      simp [objAssign]
    rw [hstep, ih hnd' _]
    by_cases he : k = kv.1
    · rw [he, jsGet_eq_none rest kv.1 hhead, jsGet_cons_self kv rest]
      simp only [Option.elim]
      exact jsGet_setKey_self t kv.1 kv.2
    · rw [jsGet_cons_ne kv rest k he]
      cases hr : jsGet rest k with
      | none =>
        simp only [Option.elim]
        exact jsGet_setKey_ne t kv.1 kv.2 k he
      | some v => simp only [Option.elim]

/-- Lookup in the merged map of duplicate-free candidates: the last
candidate containing the key supplies its value. -/
theorem jsGet_mergeMaps (maps : List JsObj) (k : String)
    (h : ∀ mm ∈ maps, (objKeys mm).Nodup) :
    jsGet (mergeMaps maps) k = lastWins maps k := by
  have main : ∀ (ms : List JsObj), (∀ mm ∈ ms, (objKeys mm).Nodup) → ∀ (t : JsObj),
      jsGet (ms.foldl objAssign t) k = ms.foldl (fun acc m =>
        match jsGet m k with
        | some v => some v
        | none => acc) (jsGet t k) := by
    intro ms
    induction ms with
    | nil => intro _ t; rfl
    | cons m rest ih =>
      intro hall t
      simp only [List.foldl_cons]
      rw [ih (fun mm hmm => hall mm (List.mem_cons_of_mem _ hmm)) (objAssign t m)]
      rw [jsGet_objAssign k m (hall m (List.mem_cons_self _ _)) t]
      cases hr : jsGet m k with
      | none => simp only [Option.elim]
      | some v => simp only [Option.elim]
  exact main maps h []

/-- A poll loop whose every sweep, and whose last-chance sweep, comes back
empty returns nothing. -/
theorem waitLoop_none_of_all_nil (targetKeys : List String) :
    ∀ (polls : List (List JsObj)), (∀ ms ∈ polls, ms = []) →
      waitLoop targetKeys polls [] = none := by
  intro polls
  induction polls with
  | nil => intro _; rfl
  | cons ms rest ih =>
    intro hall
    have hms : ms = [] := hall ms (List.mem_cons_self _ _)
    subst hms
    simp only [waitLoop, findTargetMap, List.find?]
    simp only [List.length_nil]
    exact ih (fun ms' hms' => hall ms' (List.mem_cons_of_mem _ hms'))

/-! ## Claims -/

/-- C9: content normalization applied to a plain string value returns that
string unchanged, and applied to an object of shape `{content: "x"}`
returns the string `"x"`. -/
theorem claim_C9 :
    (∀ s : String, normalizeContent (.vstr s) = .vstr s) ∧
      normalizeContent (.vobj [("content", .vstr "x")]) = .vstr "x" :=
  ⟨fun _ => rfl, rfl⟩

/-- C4: for every record whose `files` field is a non-empty non-array
object, the extractor returns exactly that `files` object, regardless of
any tier-2 or tier-3 shape the record may also have. -/
theorem claim_C4 (fields fs : JsObj)
    (h : jsGetField (.vobj fields) "files" = .vobj fs) (hne : fs ≠ []) :
    extractFilesMap (.vobj fields) = some (.vobj fs) := by
  simp [extractFilesMap, truthy, typeofIsObject, jsIsArray, h]

/-- Witness for C4 at a record that also satisfies the tier-2 and tier-3
conditions, confirming tier-1 precedence. -/
theorem claim_C4_witness :
    jsGetField (.vobj [("/home/project/a.ts", .vstr "z"),
        ("files", .vobj [("a", .vstr "1")]),
        ("snapshot", .vobj [("files", .vobj [("b", .vstr "2")])])]) "files"
      = .vobj [("a", .vstr "1")] ∧
    ([(("a" : String), JsVal.vstr "1")] ≠ []) ∧
    extractFilesMap (.vobj [("/home/project/a.ts", .vstr "z"),
        ("files", .vobj [("a", .vstr "1")]),
        ("snapshot", .vobj [("files", .vobj [("b", .vstr "2")])])])
      = some (.vobj [("a", .vstr "1")]) := by
  refine ⟨rfl, by simp, ?_⟩
  exact claim_C4 _ _ rfl (by simp)

/-- C2 fails on the code: a record whose `files` field is the empty object
makes the extractor return that empty object, whose key set is empty. -/
theorem claim_C2_counterexample :
    extractFilesMap (.vobj [("files", .vobj [])]) = some (.vobj []) ∧
      objKeysOf (.vobj []) = [] :=
  ⟨rfl, rfl⟩

/-- C2 (amended): the extractor returns either no match or an object-typed
non-array value; the non-empty-key-set guarantee does not hold, because
tiers 1 and 2 pass through an empty (or keyless) object unchecked. -/
theorem claim_C2_amended : ∀ c : JsVal, extractFilesMap c = none ∨
    ∃ v, extractFilesMap c = some v ∧ typeofIsObject v = true ∧ jsIsArray v = false := by
  intro c
  cases c with
  | vnull => exact Or.inl rfl
  | vbool b => left; cases b <;> rfl
  | vnum n => left; simp [extractFilesMap, truthy, typeofIsObject]
  | vstr s => left; simp [extractFilesMap, truthy, typeofIsObject]
  | vbuf bytes => exact Or.inl rfl
  | varr items =>
    left
    cases items with
    | nil => rfl
    | cons v0 rest =>
      simp [extractFilesMap, truthy, typeofIsObject, jsIsArray, jsGetField,
        objKeysOf, List.range_succ_eq_map]
      decide
  | vobj fields =>
    unfold extractFilesMap
    rw [if_neg (fun h => by exact Bool.noConfusion h)]
    dsimp only
    by_cases h1 : (truthy (jsGetField (.vobj fields) "files")
        && typeofIsObject (jsGetField (.vobj fields) "files")
        && !jsIsArray (jsGetField (.vobj fields) "files")) = true
    · rw [if_pos h1]
      have hc := h1
      rw [Bool.and_eq_true, Bool.and_eq_true] at hc
      exact Or.inr ⟨jsGetField (.vobj fields) "files", rfl, hc.1.2, by simpa using hc.2⟩
    · rw [if_neg h1]
      by_cases h2 : (truthy (jsGetField (.vobj fields) "snapshot")
          && truthy (jsGetField (jsGetField (.vobj fields) "snapshot") "files")
          && typeofIsObject (jsGetField (jsGetField (.vobj fields) "snapshot") "files")
          && !jsIsArray (jsGetField (jsGetField (.vobj fields) "snapshot") "files")) = true
      · rw [if_pos h2]
        have hc := h2
        rw [Bool.and_eq_true, Bool.and_eq_true, Bool.and_eq_true] at hc
        exact Or.inr ⟨jsGetField (jsGetField (.vobj fields) "snapshot") "files", rfl,
          hc.1.2, by simpa using hc.2⟩
      · rw [if_neg h2]
        cases hk : objKeysOf (.vobj fields) with
        | nil => exact Or.inl rfl
        | cons k0 ks =>
          dsimp only
          by_cases h3 : (jsStartsWith k0 "/home/project" || jsStartsWith k0 "home/project"
              || jsStartsWith k0 "src" || jsStartsWith k0 "public"
              || strContains k0 "index.html") = true
          · rw [if_pos h3]
            exact Or.inr ⟨.vobj fields, rfl, rfl, rfl⟩
          · rw [if_neg h3]
            exact Or.inl rfl

/-- C1 fails on the code: with an empty preferred-path set, a first-poll
Candidate containing no root filename is not returned on the first
iteration — the loop sleeps through the budget (the `targetKeys` list
always contains the root filenames, so the empty-target early return
never fires) and here ends with nothing. -/
theorem claim_C1_counterexample :
    waitAndCollectFilesMap [] [[[("x", JsVal.vstr "y")]]] [] = none ∧
      waitAndCollectFilesMap [] [[[("x", JsVal.vstr "y")]]] []
        ≠ some [("x", JsVal.vstr "y")] :=
  ⟨rfl, fun h => Option.noConfusion ((rfl : waitAndCollectFilesMap [] [[[("x", JsVal.vstr "y")]]] [] = none) ▸ h)⟩

/-- C1 (amended): the poll loop's target-key list is never empty — it
always includes the root filenames — so the early return for an empty
target list never fires; with an empty preferred-path set the first poll
returns immediately exactly when one of its Candidates contains a root
filename in either spelling, yielding the first such Candidate. -/
theorem claim_C1_amended :
    (∀ created : List String, targetKeysOf created ≠ []) ∧
    (∀ (maps : List JsObj) (rest : List (List JsObj)) (finalMaps : List JsObj)
        (m : JsObj), findTargetMap (targetKeysOf []) maps = some m →
      waitAndCollectFilesMap [] (maps :: rest) finalMaps = some m) := by
  constructor
  · intro created h
    have := congrArg List.length h
    simp [targetKeysOf, PREFERRED_ROOT_FILES] at this
  · intro maps rest finalMaps m h
    unfold waitAndCollectFilesMap waitLoop
    rw [h]

/-- Witness for the amended C1: a first-poll candidate keyed by
`package.json` is found by target matching and returned immediately. -/
theorem claim_C1_witness :
    findTargetMap (targetKeysOf []) [[("package.json", JsVal.vstr "x")]]
      = some [("package.json", JsVal.vstr "x")] ∧
    targetKeysOf [] ≠ [] ∧
    waitAndCollectFilesMap [] [[[("package.json", JsVal.vstr "x")]]] []
      = some [("package.json", JsVal.vstr "x")] := by
  have hf : findTargetMap (targetKeysOf []) [[("package.json", JsVal.vstr "x")]]
      = some [("package.json", JsVal.vstr "x")] := rfl
  exact ⟨hf, claim_C1_amended.1 [], claim_C1_amended.2 _ [] [] _ hf⟩

/-- C8: when every in-budget sweep and the last-chance sweep produce zero
Candidates, the run ends in the terminal no-files-found state and no
upload outcome — hence no network request — is possible. -/
theorem claim_C8 (created0 : List String) (polls : List (List JsObj))
    (allMaps : List JsObj) (hp : ∀ ms ∈ polls, ms = []) :
    handleClickModel created0 polls [] allMaps = Outcome.noFilesFound ∧
      ∀ fs, handleClickModel created0 polls [] allMaps ≠ Outcome.upload fs := by
  have hnone : waitAndCollectFilesMap (normalizeCreatedPaths created0) polls [] = none :=
    waitLoop_none_of_all_nil _ polls hp
  constructor
  · simp [handleClickModel, hnone]
  · intro fs
    simp [handleClickModel, hnone]

/-- Witness for C8 at two empty sweeps. -/
theorem claim_C8_witness :
    (∀ ms ∈ ([[], []] : List (List JsObj)), ms = []) ∧
    handleClickModel ["a"] [[], []] [] [[("x", JsVal.vnull)]] = Outcome.noFilesFound ∧
      ∀ fs, handleClickModel ["a"] [[], []] [] [[("x", JsVal.vnull)]]
        ≠ Outcome.upload fs := by
  have hp : ∀ ms ∈ ([[], []] : List (List JsObj)), ms = [] := by simp
  exact ⟨hp, claim_C8 ["a"] [[], []] [[("x", JsVal.vnull)]] hp⟩

/-- C5: among Candidates sharing a signature — the first ten keys joined
in enumeration order — exactly the first one in aggregation order
survives deduplication. -/
theorem claim_C5 (maps : List JsObj) (s : String)
    (h : ∃ m ∈ maps, mapSignature m = s) :
    ∃ m0, maps.find? (fun m => mapSignature m == s) = some m0 ∧
      (gatherFilesMapsDedupe maps).filter (fun m => mapSignature m == s) = [m0] := by
  obtain ⟨m, hm, hsig⟩ := h
  have hsome : (maps.find? (fun m => mapSignature m == s)).isSome := by
    rw [List.find?_isSome]
    exact ⟨m, hm, by simp [hsig]⟩
  obtain ⟨m0, hm0⟩ := Option.isSome_iff_exists.mp hsome
  refine ⟨m0, hm0, ?_⟩
  have := dedupeGo_filter_new s maps [] [] rfl rfl
  rw [gatherFilesMapsDedupe, this, hm0]
  rfl

/-- Witness for C5 at two single-key candidates with equal signatures. -/
theorem claim_C5_witness :
    (∃ m ∈ ([[("a", JsVal.vstr "1")], [("a", JsVal.vstr "2")]] : List JsObj),
      mapSignature m = "a") ∧
    ∃ m0, ([[("a", JsVal.vstr "1")], [("a", JsVal.vstr "2")]] : List JsObj).find?
        (fun m => mapSignature m == "a") = some m0 ∧
      (gatherFilesMapsDedupe [[("a", JsVal.vstr "1")], [("a", JsVal.vstr "2")]]).filter
        (fun m => mapSignature m == "a") = [m0] := by
  have h : ∃ m ∈ ([[("a", JsVal.vstr "1")], [("a", JsVal.vstr "2")]] : List JsObj),
      mapSignature m = "a" := ⟨[("a", JsVal.vstr "1")], by simp, rfl⟩
  exact ⟨h, claim_C5 _ "a" h⟩

/-- C6: when the initial selection has fewer than 5 entries, the caller's
final selection is the rerun of the heuristic on the merge of all
Candidates with the same preferred paths, and in that merged map the last
Candidate containing a key supplies its value. -/
theorem claim_C6 (fm : JsObj) (created : List String) (allMaps : List JsObj)
    (h : (chooseFilesFromMap (some fm) created).length < 5)
    (hnd : ∀ mm ∈ allMaps, (objKeys mm).Nodup) :
    selectWithEscalation fm created allMaps
      = chooseFilesFromMap (some (mergeMaps allMaps)) created ∧
    ∀ k, jsGet (mergeMaps allMaps) k = lastWins allMaps k := by
  constructor
  · unfold selectWithEscalation
    rw [if_pos h]
  · intro k
    exact jsGet_mergeMaps allMaps k hnd

/-- Witness for C6: a one-entry initial selection escalates to the merged
map, in which the later candidate's value for the shared key wins. -/
theorem claim_C6_witness :
    (chooseFilesFromMap (some [("a", JsVal.vstr "1")]) ["a"]).length < 5 ∧
    (∀ mm ∈ ([[("a", JsVal.vstr "1")], [("a", JsVal.vstr "2")]] : List JsObj),
      (objKeys mm).Nodup) ∧
    (selectWithEscalation [("a", JsVal.vstr "1")] ["a"]
        [[("a", JsVal.vstr "1")], [("a", JsVal.vstr "2")]]
      = chooseFilesFromMap
          (some (mergeMaps [[("a", JsVal.vstr "1")], [("a", JsVal.vstr "2")]])) ["a"] ∧
    ∀ k, jsGet (mergeMaps [[("a", JsVal.vstr "1")], [("a", JsVal.vstr "2")]]) k
      = lastWins [[("a", JsVal.vstr "1")], [("a", JsVal.vstr "2")]] k) := by
  have h : (chooseFilesFromMap (some [("a", JsVal.vstr "1")]) ["a"]).length < 5 := by
    decide
  have hnd : ∀ mm ∈ ([[("a", JsVal.vstr "1")], [("a", JsVal.vstr "2")]] : List JsObj),
      (objKeys mm).Nodup := by
    intro mm hmm
    simp only [List.mem_cons, List.not_mem_nil, or_false] at hmm
    rcases hmm with rfl | rfl <;> decide
  exact ⟨h, hnd, claim_C6 _ _ _ h hnd⟩

/-- C7: on a map with more than 5000 keys none of which matches a
preferred-path variant, a tier-2 rule, or the tier-3 pattern, selection
falls through to tier 4 and returns exactly the first 5000 keys in
enumeration order. -/
theorem claim_C7 (m : JsObj) (created : List String)
    (hlen : 5000 < (objKeys m).length)
    (hpref : ∀ p ∈ created, ∀ v ∈ keyVariants p, v ∉ objKeys m)
    (h2 : ∀ k ∈ objKeys m, (prefixMatches k || rootMatches k) = false)
    (h3 : ∀ k ∈ objKeys m, tier3test k = false) :
    chooseFilesFromMap (some m) created = ((objKeys m).take 5000).map
      (fun k => { path := k, content := normalizeContent (jsIndex m k) }) ∧
    (chooseFilesFromMap (some m) created).length = 5000 := by
  have hc := choose_tier4 m created
    (normCreated_eq_nil (objKeys m) created hpref)
    (tier2keys_eq_nil (objKeys m) h2)
    (List.filter_eq_nil_iff.mpr (fun k hk => by simp [h3 k hk]))
  refine ⟨hc, ?_⟩
  rw [hc, List.length_map, List.length_take]
  omega

/-- Witness for C7 at a 5001-entry map whose single repeated key matches
no selection rule. -/
theorem claim_C7_witness :
    5000 < (objKeys (List.replicate 5001 (("q", JsVal.vnull)))).length ∧
    (∀ p ∈ ([] : List String), ∀ v ∈ keyVariants p,
      v ∉ objKeys (List.replicate 5001 (("q", JsVal.vnull)))) ∧
    (∀ k ∈ objKeys (List.replicate 5001 (("q", JsVal.vnull))),
      (prefixMatches k || rootMatches k) = false) ∧
    (∀ k ∈ objKeys (List.replicate 5001 (("q", JsVal.vnull))), tier3test k = false) ∧
    (chooseFilesFromMap (some (List.replicate 5001 (("q", JsVal.vnull)))) []
      = ((objKeys (List.replicate 5001 (("q", JsVal.vnull)))).take 5000).map
        (fun k =>
          { path := k,
            content := normalizeContent
              (jsIndex (List.replicate 5001 (("q", JsVal.vnull))) k) }) ∧
    (chooseFilesFromMap (some (List.replicate 5001 (("q", JsVal.vnull)))) []).length
      = 5000) := by
  have hlen : 5000 < (objKeys (List.replicate 5001 (("q", JsVal.vnull)))).length := by
    show 5000 < ((List.replicate 5001 (("q", JsVal.vnull))).map Prod.fst).length
    rw [List.length_map, List.length_replicate]
    omega
  have hpref : ∀ p ∈ ([] : List String), ∀ v ∈ keyVariants p,
      v ∉ objKeys (List.replicate 5001 (("q", JsVal.vnull))) := by
    intro p hp
    exact absurd hp (List.not_mem_nil p)
  have hq : ∀ k ∈ objKeys (List.replicate 5001 (("q", JsVal.vnull))), k = "q" := by
    intro k hk
    obtain ⟨a, ha, hfa⟩ := List.mem_map.mp hk
    have hax := List.eq_of_mem_replicate ha
    rw [← hfa, hax]
  have h2 : ∀ k ∈ objKeys (List.replicate 5001 (("q", JsVal.vnull))),
      (prefixMatches k || rootMatches k) = false := by
    intro k hk
    rw [hq k hk]
    decide
  have h3 : ∀ k ∈ objKeys (List.replicate 5001 (("q", JsVal.vnull))),
      tier3test k = false := by
    intro k hk
    rw [hq k hk]
    decide
  exact ⟨hlen, hpref, h2, h3, claim_C7 _ [] hlen hpref h2 h3⟩
/-- Tier-2 equation of the selection heuristic: with an empty preferred
tier, a non-empty tier-2 collection is final. -/
theorem choose_tier2 (m : JsObj) (created : List String)
    (h1 : normCreated (objKeys m) created = [])
    (h2 : tier2keys (objKeys m) ≠ []) :
    chooseFilesFromMap (some m) created = (tier2keys (objKeys m)).map
      (fun k => { path := k, content := normalizeContent (jsIndex m k) }) := by
  have h2' : ((tier2keys (objKeys m)).length != 0) = true := by simpa using h2
  simp [chooseFilesFromMap, h1, h2']

/-- Tier-3 equation of the selection heuristic: with tiers 1 and 2 empty,
a non-empty pattern-fallback collection is final. -/
theorem choose_tier3 (m : JsObj) (created : List String)
    (h1 : normCreated (objKeys m) created = [])
    (h2 : tier2keys (objKeys m) = [])
    (h3 : (objKeys m).filter tier3test ≠ []) :
    chooseFilesFromMap (some m) created = ((objKeys m).filter tier3test).map
      (fun k => { path := k, content := normalizeContent (jsIndex m k) }) := by
  have h3' : (((objKeys m).filter tier3test).length != 0) = true := by simpa using h3
  simp [chooseFilesFromMap, h1, h2, h3']

/-- Whichever tier fires, the selection output is the entry list of some
key list drawn from the map's keys, duplicate-free whenever the map's key
set is. -/
theorem choose_spec (m : JsObj) (created : List String) :
    ∃ ks : List String,
      chooseFilesFromMap (some m) created = ks.map
        (fun k => { path := k, content := normalizeContent (jsIndex m k) }) ∧
      (∀ x ∈ ks, x ∈ objKeys m) ∧ ((objKeys m).Nodup → ks.Nodup) := by
  by_cases h1 : normCreated (objKeys m) created = []
  · by_cases h2 : tier2keys (objKeys m) = []
    · by_cases h3 : (objKeys m).filter tier3test = []
      · refine ⟨(objKeys m).take 5000, choose_tier4 m created h1 h2 h3, ?_, ?_⟩
        · intro x hx
          exact List.take_subset _ _ hx
        · intro hnd
          exact (List.take_sublist _ _).nodup hnd
      · refine ⟨(objKeys m).filter tier3test, choose_tier3 m created h1 h2 h3, ?_, ?_⟩
        · intro x hx
          exact (List.mem_filter.mp hx).1
        · intro hnd
          exact hnd.filter _
    · exact ⟨tier2keys (objKeys m), choose_tier2 m created h1 h2,
        tier2keys_mem _, fun _ => tier2keys_nodup _⟩
  · refine ⟨normCreated (objKeys m) created, choose_tier1 m created h1, ?_, ?_⟩
    · intro x hx
      rcases normCreated_mem (objKeys m) created [] x hx with h | ⟨hk, _⟩
      · cases h
      · exact hk
    · intro _
      exact normCreated_nodup (objKeys m) created [] List.nodup_nil

/-- C3: a map holding key `"a"` (and not `"/a"`) selects the `"a"` entry
under preferred path `"a"` and under preferred path `"/a"` alike, and a
non-empty preferred tier is final: the output is exactly the
preferred-matched entries, in preferred-path order, each a key of the map
reached through a spelling variant of a preferred path. -/
theorem claim_C3 (m : JsObj) (v : JsVal) (hget : jsGet m "a" = some v)
    (habs : "/a" ∉ objKeys m) :
    chooseFilesFromMap (some m) ["a"]
      = [{ path := "a", content := normalizeContent v }] ∧
    chooseFilesFromMap (some m) ["/a"]
      = [{ path := "a", content := normalizeContent v }] ∧
    ∀ (m2 : JsObj) (created : List String),
      normCreated (objKeys m2) created ≠ [] →
      chooseFilesFromMap (some m2) created = (normCreated (objKeys m2) created).map
        (fun k => { path := k, content := normalizeContent (jsIndex m2 k) }) ∧
      ∀ x ∈ normCreated (objKeys m2) created,
        x ∈ objKeys m2 ∧ ∃ p ∈ created, x ∈ keyVariants p := by
  have hmem : "a" ∈ objKeys m := by
    obtain ⟨kv, hkv, hv2⟩ := Option.map_eq_some'.mp hget
    have hbeq := List.find?_some hkv
    have hk1 : kv.1 = "a" := eq_of_beq hbeq
    exact hk1 ▸ List.mem_map_of_mem Prod.fst (List.mem_of_find?_eq_some hkv)
  have hca : (objKeys m).contains "a" = true := contains_true.mpr hmem
  have hcs : (objKeys m).contains "/a" = false := contains_false habs
  have hNC1 : normCreated (objKeys m) ["a"] = ["a"] := by
    unfold normCreated
    simp only [List.foldl_cons, List.foldl_nil]
    rw [show keyVariants "a" = ["a", "/a"] from by decide]
    simp [hmem, habs]
  have hNC2 : normCreated (objKeys m) ["/a"] = ["a"] := by
    unfold normCreated
    simp only [List.foldl_cons, List.foldl_nil]
    rw [show keyVariants "/a" = ["/a", "a"] from by decide]
    simp [hmem, habs]
  have hidx : jsIndex m "a" = v := by
    simp [jsIndex, hget]
  refine ⟨?_, ?_, ?_⟩
  · rw [choose_tier1 m ["a"] (by rw [hNC1]; exact fun h => List.noConfusion h), hNC1]
    simp [hidx]
  · rw [choose_tier1 m ["/a"] (by rw [hNC2]; exact fun h => List.noConfusion h), hNC2]
    simp [hidx]
  · intro m2 created hne
    refine ⟨choose_tier1 m2 created hne, ?_⟩
    intro x hx
    rcases normCreated_mem (objKeys m2) created [] x hx with h | ⟨hk, p, hp, hv⟩
    · cases h
    · exact ⟨hk, p, hp, hv⟩

/-- Witness for C3 at the one-key map `{"a": "1"}`. -/
theorem claim_C3_witness :
    jsGet [(("a" : String), JsVal.vstr "1")] "a" = some (JsVal.vstr "1") ∧
    "/a" ∉ objKeys [(("a" : String), JsVal.vstr "1")] ∧
    (chooseFilesFromMap (some [(("a" : String), JsVal.vstr "1")]) ["a"]
        = [{ path := "a", content := normalizeContent (JsVal.vstr "1") }] ∧
      chooseFilesFromMap (some [(("a" : String), JsVal.vstr "1")]) ["/a"]
        = [{ path := "a", content := normalizeContent (JsVal.vstr "1") }] ∧
      ∀ (m2 : JsObj) (created : List String),
        normCreated (objKeys m2) created ≠ [] →
        chooseFilesFromMap (some m2) created = (normCreated (objKeys m2) created).map
          (fun k => { path := k, content := normalizeContent (jsIndex m2 k) }) ∧
        ∀ x ∈ normCreated (objKeys m2) created,
          x ∈ objKeys m2 ∧ ∃ p ∈ created, x ∈ keyVariants p) := by
  have hget : jsGet [(("a" : String), JsVal.vstr "1")] "a" = some (JsVal.vstr "1") := rfl
  have habs : "/a" ∉ objKeys [(("a" : String), JsVal.vstr "1")] := by decide
  exact ⟨hget, habs, claim_C3 _ _ hget habs⟩

/-- C10: every selected entry's path is a key of the input map and its
content is the normalization of the map's value at that path, and the
output paths are pairwise distinct, in all four tiers. -/
theorem claim_C10 (m : JsObj) (created : List String)
    (hnd : (objKeys m).Nodup) :
    (∀ e ∈ chooseFilesFromMap (some m) created,
      e.path ∈ objKeys m ∧ e.content = normalizeContent (jsIndex m e.path)) ∧
    ((chooseFilesFromMap (some m) created).map SelEntry.path).Nodup := by
  obtain ⟨ks, heq, hmem, hnodup⟩ := choose_spec m created
  constructor
  · intro e he
    rw [heq] at he
    obtain ⟨k, hk, hek⟩ := List.mem_map.mp he
    refine ⟨?_, ?_⟩
    · rw [← hek]
      exact hmem k hk
    · rw [← hek]
  · rw [heq, List.map_map]
    have hcomp : (SelEntry.path ∘ fun k =>
        ({ path := k, content := normalizeContent (jsIndex m k) } : SelEntry)) = id := by
      funext k
      rfl
    rw [hcomp, List.map_id]
    exact hnodup hnd

/-- Witness for C10 at a two-key map with a preferred path. -/
theorem claim_C10_witness :
    (objKeys [(("a" : String), JsVal.vstr "1"), ("b", JsVal.vnull)]).Nodup ∧
    ((∀ e ∈ chooseFilesFromMap
        (some [(("a" : String), JsVal.vstr "1"), ("b", JsVal.vnull)]) ["b"],
      e.path ∈ objKeys [(("a" : String), JsVal.vstr "1"), ("b", JsVal.vnull)] ∧
        e.content = normalizeContent
          (jsIndex [(("a" : String), JsVal.vstr "1"), ("b", JsVal.vnull)] e.path)) ∧
    ((chooseFilesFromMap
        (some [(("a" : String), JsVal.vstr "1"), ("b", JsVal.vnull)]) ["b"]).map
      SelEntry.path).Nodup) := by
  have hnd : (objKeys [(("a" : String), JsVal.vstr "1"), ("b", JsVal.vnull)]).Nodup := by
    decide
  exact ⟨hnd, claim_C10 _ ["b"] hnd⟩
